import Mathlib

/-
Verification of the bulk-submit consumer core against its design document.

The development shallowly embeds the relevant TypeScript modules:

  * `BulkDownloader` (manifest validation, per-file NDJSON download and
    resource validation, progress/complete event traces),
  * `JobQueue` (the FIFO single-consumer task queue, as an explicit
    state machine whose interleaving is given by an operation script),
  * `Job` (the per-job lifecycle state machine reacting to downloader
    events),
  * `Submission` (aggregate progress, `start` dispatch over jobs),
  * `StatusManifest` (the per-manifest-url error ledger) and the
    `replaceManifest` branch of the bulk-submit request handler.

JavaScript values flowing through JSON are modelled by `JValue`;
JavaScript numbers are modelled by `Rat` (exact arithmetic), machine
strings by `String`.  Asynchronous code is sequentialized: within one
component every await point preserves program order, so each async
routine is embedded as a pure function from its inputs (including a
fetch oracle for network responses) to its result together with the
ordered list of events it emits.
-/

namespace BulkSubmit

/-- JSON-like values, modelling the untyped JavaScript data that flows
through manifests and NDJSON lines. -/
inductive JValue where
  | null : JValue
  | bool : Bool → JValue
  | num  : Int → JValue
  | str  : String → JValue
  | arr  : List JValue → JValue
  | obj  : List (String × JValue) → JValue
  deriving Repr

/-- JavaScript truthiness of a defined value: null, false, 0 and the
empty string are falsy, arrays and objects are always truthy. -/
def jsTruthy : JValue → Bool
  | .null => false
  | .bool b => b
  | .num n => n != 0
  | .str s => !s.isEmpty
  | .arr _ => true
  | .obj _ => true

/-- Truthiness of a possibly-undefined value (`none` = undefined). -/
def jsTruthyOpt : Option JValue → Bool
  | none => false
  | some v => jsTruthy v

/-- Property lookup on a JavaScript value: a field of an object, and
undefined on every other value. -/
def getField (v : JValue) (k : String) : Option JValue :=
  match v with
  | .obj fields => fields.lookup k
  | _ => none

/-- True exactly when `typeof v` is the string object and `v` is not
null, which is the first check of `validateResource`. -/
def jsIsNonNullObject : JValue → Bool
  | .arr _ => true
  | .obj _ => true
  | _ => false

/-- Modelled from the spec: the downloader imports a constant list of
recognized FHIR R4 resource type names from src/FhirResources.ts, a file
that is not included in this repository snapshot.  The claims depend on
it only through membership of a resource type string, so a representative
list suffices. -/
def FhirResources : List String :=
  ["Bundle", "DocumentReference", "Encounter", "Observation",
   "OperationOutcome", "Patient", "Practitioner", "Procedure"]

/-- Reasons for which `BulkDownloader.validateResource` throws, one per
throw site, in source order. -/
inductive VErr where
  | notAnObject
  | invalidResourceType
  | missingId
  | typeMismatch
  deriving Repr, DecidableEq

/-- The resourceType property of a value when it is a string, else
undefined. -/
def resourceTypeOf (v : JValue) : Option String :=
  match getField v "resourceType" with
  | some (.str t) => some t
  | _ => none

/-- Embedding of `BulkDownloader.validateResource(resource, file)`:
reject a value that is not a non-null object, a resourceType outside the
recognized list (including a missing or non-string resourceType), a
missing, empty or non-string id, and, when the manifest entry declares a
truthy expected type, a resourceType different from it.  Returns the
first violation in source order, or `none` when the resource is
accepted. -/
def validateResource (resource : JValue) (fileType : Option String) : Option VErr :=
  if !jsIsNonNullObject resource then
    some .notAnObject
  else if !(match resourceTypeOf resource with
            | some t => FhirResources.contains t
            | none => false) then
    some .invalidResourceType
  else if !(match getField resource "id" with
            | some (.str s) => !s.isEmpty
            | _ => false) then
    some .missingId
  else
    match fileType, resourceTypeOf resource with
    | some ft, some t => if !ft.isEmpty && t != ft then some .typeMismatch else none
    | _, _ => none

/-- One entry of a manifest output, deleted or error array. -/
structure FileEntry where
  type : Option String := none
  url : String
  count : Option Nat := none
  deriving Repr

/-- The context a `CustomError` carries, restricted to the fields the
claims mention: the categorical issue type, the 1-based line number and
the offending resource. -/
structure ErrInfo where
  issueType : String
  lineNumber : Option Nat := none
  resource : Option JValue := none
  deriving Repr

/-- Events emitted by a `BulkDownloader`. -/
inductive DEvent where
  | start
  | complete
  | abortEv
  | progress (downloaded total : Nat)
  | downloadStart (url : String)
  | downloadComplete (url : String) (count : Nat)
  | errorEvent (e : ErrInfo)
  deriving Repr

/-- The per-line loop of `downloadFile`: write each line that passes
`validateResource` to the destination file, stopping at the first line
that fails validation (the source rethrows the validation error out of
the loop).  Returns the written lines and, when validation failed, the
offending line. -/
def writeLines (fileType : Option String) : List JValue → List JValue × Option JValue
  | [] => ([], none)
  | l :: rest =>
    match validateResource l fileType with
    | some _ => ([], some l)
    | none =>
      let r := writeLines fileType rest
      (l :: r.1, r.2)

/-- Embedding of `BulkDownloader.downloadFile` for an un-aborted
downloader: given the manifest entry and the fetch outcome for its url
(an error string, or the stream of parsed NDJSON lines), produce the
events emitted for this file and the list of lines appended to the
destination file.  Attachment handling for DocumentReference resources
is not modelled: in the source it catches all its own failures, so it
can only add further error events tagged processing and never interrupts
the line loop or changes which lines are written.  Error cases follow
the single catch block of the source: a failed request yields an error
tagged processing with no resource context; a validation failure yields
an error tagged invalid carrying the offending line and its 1-based
number; a count mismatch after a fully validated stream yields an error
tagged processing. -/
def downloadFile (file : FileEntry) (fetched : Except String (List JValue)) :
    List DEvent × List JValue :=
  match fetched with
  | .error _ =>
    ([.downloadStart file.url,
      .errorEvent { issueType := "processing" }], [])
  | .ok lines =>
    match writeLines file.type lines with
    | (written, some bad) =>
      ([.downloadStart file.url,
        .errorEvent { issueType := "invalid",
                      lineNumber := some (written.length + 1),
                      resource := some bad }], written)
    | (written, none) =>
      match file.count with
      | some c =>
        if c != written.length then
          ([.downloadStart file.url,
            .errorEvent { issueType := "processing",
                          lineNumber := lines.getLast?.map (fun _ => written.length + 1),
                          resource := lines.getLast? }], written)
        else
          ([.downloadStart file.url, .downloadComplete file.url written.length], written)
      | none =>
        ([.downloadStart file.url, .downloadComplete file.url written.length], written)

/-- The raw JSON manifest as received from the wire, before validation:
each field is possibly undefined and of arbitrary JSON type.  Only the
fields `validateManifest` inspects are kept. -/
structure ManifestJS where
  transactionTime : Option JValue := none
  requiresAccessToken : Option JValue := none
  output : Option JValue := none
  deleted : Option JValue := none
  deriving Repr

/-- True when the possibly-undefined value is strictly a boolean, which
is what `typeof x === 'boolean'` tests. -/
def isBoolOpt : Option JValue → Bool
  | some (.bool _) => true
  | _ => false

/-- True when the possibly-undefined value is an array
(`Array.isArray`). -/
def isArrayOpt : Option JValue → Bool
  | some (.arr _) => true
  | _ => false

/-- Embedding of `BulkDownloader.validateManifest`: throw on a falsy
transactionTime, then on a non-boolean requiresAccessToken, then on a
non-array output, then on a deleted field that is present but not an
array; accept otherwise.  The result carries the message of the first
throw in source order. -/
def validateManifest (m : ManifestJS) : Except String Unit :=
  if !jsTruthyOpt m.transactionTime then
    .error "Manifest is missing transactionTime"
  else if !isBoolOpt m.requiresAccessToken then
    .error "Manifest has missing or invalid requiresAccessToken"
  else if !isArrayOpt m.output then
    .error "Manifest output must be an array"
  else if m.deleted.isSome && !isArrayOpt m.deleted then
    .error "Manifest deleted must be an array if present"
  else
    .ok ()

/-- Spec-side reading of claim C8 as amended: the ordered list of rule
violations, where the first rule fires on an absent or falsy
transactionTime. -/
def manifestRuleViolations (m : ManifestJS) : List String :=
  (if jsTruthyOpt m.transactionTime then [] else ["Manifest is missing transactionTime"]) ++
  (if isBoolOpt m.requiresAccessToken then [] else ["Manifest has missing or invalid requiresAccessToken"]) ++
  (if isArrayOpt m.output then [] else ["Manifest output must be an array"]) ++
  (if m.deleted.isSome && !isArrayOpt m.deleted then ["Manifest deleted must be an array if present"] else [])

/-- Spec-side validator: fail fast with the first violated rule, accept
a manifest that violates no rule. -/
def specValidateManifest (m : ManifestJS) : Except String Unit :=
  match manifestRuleViolations m with
  | [] => .ok ()
  | e :: _ => .error e

/-- A manifest that already passed `validateManifest`, reduced to the
three file arrays the download phase iterates over. -/
structure Manifest where
  output : List FileEntry := []
  deleted : List FileEntry := []
  error : List FileEntry := []
  deriving Repr

/-- The deferred download tasks of `downloadAllFiles`: one per entry of
output, deleted and error, in that array order. -/
def allFiles (m : Manifest) : List FileEntry :=
  m.output ++ m.deleted ++ m.error

/-- A fetch oracle: the network response for each file url, either an
error string or the stream of parsed NDJSON lines. -/
def FetchOracle := String → Except String (List JValue)

/-- Events of one task of `downloadAllFiles` followed by the progress
event its queue success handler emits. -/
def fileTaskEvents (fetch : FetchOracle) (total : Nat) (p : Nat × FileEntry) :
    List DEvent :=
  (downloadFile p.2 (fetch p.2.url)).1 ++ [.progress (p.1 + 1) total]

/-- Embedding of `BulkDownloader.run` over an already fetched and
validated manifest (claim C4 quantifies over such runs): the ordered
list of events the downloader emits, paired with a flag that is true
when the run resolves.  `downloadAllFiles` submits one task per entry to
the job queue and resolves from the queue idle event once the downloaded
counter equals the total; when the manifest has no entries no task is
ever enqueued, the queue never drains and never emits idle, so the
promise returned by `downloadAllFiles` never settles: the run emits
start and then hangs, and the final complete emission is never
reached. -/
def runTrace (fetch : FetchOracle) (m : Manifest) : List DEvent × Bool :=
  let files := allFiles m
  let total := files.length
  if total = 0 then
    ([.start], false)
  else
    (.start :: (files.enum.map (fileTaskEvents fetch total)).flatten ++ [.complete], true)

/-- Count of progress events in a trace. -/
def countProgress : List DEvent → Nat
  | [] => 0
  | e :: rest => (match e with | .progress _ _ => 1 | _ => 0) + countProgress rest

/-- Count of complete events in a trace. -/
def countComplete : List DEvent → Nat
  | [] => 0
  | e :: rest => (match e with | .complete => 1 | _ => 0) + countComplete rest

/-- A queued task of `JobQueue`, identified by the caller-visible future
it will settle, together with the outcome the task produces when it is
eventually executed. -/
structure QItem where
  id : Nat
  outcome : Except String String
  deriving Repr

/-- Events a `JobQueue` emits. -/
inductive QEvent where
  | success (v : String)
  | errorEv (e : String)
  | idle
  deriving Repr, DecidableEq

/-- State of a `JobQueue`: the pending FIFO queue, the futures settled
so far with their outcomes, the emitted events, the abort-controller
generation, and the number of currently registered error listeners. -/
structure QState where
  queue : List QItem := []
  settled : List (Nat × Except String String) := []
  events : List QEvent := []
  gen : Nat := 0
  errorListeners : Nat := 0
  deriving Repr

/-- Operations on a `JobQueue`.  `addJob` pushes an item; `abortAll`
discards the whole pending queue and installs a fresh abort controller;
`step` is one iteration of the consumer loop of `processQueue`: shift
the head item, execute it, emit success (before settling) or settle the
rejection and emit the error event only when an error listener is
registered.  The event-loop interleaving of the source is made explicit
by the order of operations in a script. -/
inductive QOp where
  | addJob (it : QItem)
  | abortAll
  | step
  deriving Repr

/-- One operation applied to a queue state. -/
def qApply (s : QState) : QOp → QState
  | .addJob it => { s with queue := s.queue ++ [it] }
  | .abortAll => { s with queue := [], gen := s.gen + 1 }
  | .step =>
    match s.queue with
    | [] => s
    | it :: rest =>
      match it.outcome with
      | .ok v =>
        { s with queue := rest,
                 events := s.events ++ [.success v],
                 settled := s.settled ++ [(it.id, .ok v)] }
      | .error e =>
        { s with queue := rest,
                 settled := s.settled ++ [(it.id, .error e)],
                 events := s.events ++ (if s.errorListeners > 0 then [.errorEv e] else []) }

/-- A script of operations applied in order. -/
def qRun (s : QState) (ops : List QOp) : QState :=
  ops.foldl qApply s

/-- Lifecycle states of a `Job`. -/
inductive JStatus where
  | pending
  | inProgress
  | complete
  | failed
  | aborted
  deriving Repr, DecidableEq

/-- The per-job state the downloader event handlers mutate: status,
progress percentage, and the last stored error (the source stores the
error message string; the model stores the structured error it came
from). -/
structure JobState where
  status : JStatus := .pending
  progress : Int := 0
  error : Option ErrInfo := none
  deriving Repr

/-- JavaScript `Math.round`: round half toward positive infinity. -/
def jsRound (q : ℚ) : ℤ := ⌊q + 1 / 2⌋

/-- Embedding of the downloader event handlers registered by
`Job.start`: start resets to in-progress with progress 0, progress
stores the rounded percentage, complete forces status complete and
progress 100, error records the failure and marks the job failed, abort
marks it aborted; the two per-file events leave the job state
unchanged. -/
def jobApplyEvent (s : JobState) : DEvent → JobState
  | .start => { s with status := .inProgress, progress := 0 }
  | .progress d t => { s with progress := jsRound (((d : ℚ) / (t : ℚ)) * 100) }
  | .complete => { s with status := .complete, progress := 100 }
  | .errorEvent e => { s with status := .failed, error := some e }
  | .abortEv => { s with status := .aborted }
  | .downloadStart _ => s
  | .downloadComplete _ _ => s

/-- A run of downloader events applied in emission order. -/
def jobApplyEvents (s : JobState) (evs : List DEvent) : JobState :=
  evs.foldl jobApplyEvent s

/-- Embedding of `roundToPrecision(num, precision)` from utils:
multiply by 10 to the precision, `Math.round`, divide back. -/
def roundToPrecision (num : ℚ) (precision : Nat) : ℚ :=
  (jsRound (num * (10 : ℚ) ^ precision) : ℚ) / (10 : ℚ) ^ precision

/-- Embedding of the `Submission.progress` getter over the progress
values of the jobs of the submission (in map order): 0 when there are no
jobs, otherwise the sum of progresses divided by the number of jobs,
passed through `roundToPrecision` with precision 2. -/
def submissionProgress (ps : List ℚ) : ℚ :=
  if ps.length = 0 then 0
  else roundToPrecision (ps.sum / (ps.length : ℚ)) 2

/-- Spec-side reading of claim C9: the arithmetic mean of all job
progresses rounded to 2 decimal places, and 0 when no jobs exist. -/
def specMeanRounded (ps : List ℚ) : ℚ :=
  match ps with
  | [] => 0
  | _ => (jsRound ((ps.sum / (ps.length : ℚ)) * 100) : ℚ) / 100

/-- The submission-level view of a job used by `Submission` and the
bulk-submit handler: its identity, its manifest url and its lifecycle
status. -/
structure JobM where
  jobId : Nat
  manifestUrl : String
  status : JStatus
  deriving Repr, DecidableEq

/-- Embedding of `Job.start` at the submission level: throw when the job
is already in progress, throw when it has no manifest url, otherwise
attach the handlers and call `downloader.run`, whose synchronously
emitted start event puts the job in progress. -/
def jobStartM (j : JobM) : Except String JobM :=
  if j.status = .inProgress then
    .error "Job has already been started."
  else if j.manifestUrl = "" then
    .error "Job has no manifestUrl."
  else
    .ok { j with status := .inProgress }

/-- Embedding of `Submission.start` (the revision under src/src, whose
`forEach` body guards on status pending or aborted): start each job
whose status is pending or aborted and leave every other job untouched.
An exception from `job.start` propagates out of the `forEach`.  The call
to `job.removeEventListeners()` is modelled from the spec as pure
listener detachment (the Job revision defining it is not part of this
snapshot); it does not change the job state visible here. -/
def submissionStart : List JobM → Except String (List JobM)
  | [] => .ok []
  | j :: rest =>
    if j.status = .pending ∨ j.status = .aborted then
      match jobStartM j with
      | .error e => .error e
      | .ok j2 =>
        match submissionStart rest with
        | .error e => .error e
        | .ok rest2 => .ok (j2 :: rest2)
    else
      match submissionStart rest with
      | .error e => .error e
      | .ok rest2 => .ok (j :: rest2)

/-- One entry of the `StatusManifest.error` map: the url of its
OperationOutcome record file, the local path of that file, and the
success and error counters of the countSeverity extension.  The
manifestUrl recorded inside the entry extension is always the map key
the entry is stored under (`addManifestUrl` sets both from the same
string), so the model keeps it only as the key. -/
structure SMEntry where
  fileUrl : String
  filePath : String
  success : Nat := 0
  error : Nat := 0
  deriving Repr, DecidableEq

/-- State of a `StatusManifest`: the error map keyed by source manifest
url, in insertion order.  JavaScript object keys are unique, so deleting
a key removes every pair with that key. -/
structure SMState where
  entries : List (String × SMEntry) := []
  deriving Repr, DecidableEq

/-- One summary record of the serialized manifest-level error array. -/
structure SMRecord where
  manifestUrl : String
  url : String
  success : Nat
  error : Nat
  deriving Repr, DecidableEq

/-- Embedding of the error array of `StatusManifest.toJSON`: the ordered
list of all entries of the error map as summary records. -/
def smErrorArray (s : SMState) : List SMRecord :=
  s.entries.map (fun p =>
    { manifestUrl := p.1, url := p.2.fileUrl,
      success := p.2.success, error := p.2.error })

/-- Embedding of `StatusManifest.removeManifestUrl`: when the error map
has an entry for the manifest url, unlink its record file and delete the
entry; otherwise do nothing.  Returns the new state together with the
list of file paths unlinked. -/
def removeManifestUrl (s : SMState) (manifestUrl : String) :
    SMState × List String :=
  match s.entries.lookup manifestUrl with
  | some e => ({ entries := s.entries.filter (fun p => p.1 != manifestUrl) }, [e.filePath])
  | none => (s, [])

/-- Submission-level status. -/
inductive SStatus where
  | inProgress
  | complete
  | aborted
  deriving Repr, DecidableEq

/-- The state of one submission as seen by the bulk-submit handler. -/
structure SubmissionM where
  status : SStatus := .inProgress
  jobs : List JobM := []
  manifest : SMState := {}
  deriving Repr, DecidableEq

/-- Embedding of `Submission.addJob`, which stores the job in the jobs
map under its id (`Map.set`): replace an existing binding for the id, or
append the job in insertion order. -/
def addJobM (jobs : List JobM) (j : JobM) : List JobM :=
  if jobs.any (fun o => o.jobId == j.jobId) then
    jobs.map (fun o => if o.jobId == j.jobId then j else o)
  else
    jobs ++ [j]

/-- Embedding of `Job.abort` as observed on the replaced job: aborting
the downloader synchronously dispatches its abort event before the
handlers are detached, so the abort handler marks the job aborted. -/
def abortJobById (jobs : List JobM) (jobId : Nat) : List JobM :=
  jobs.map (fun o => if o.jobId == jobId then { o with status := .aborted } else o)

/-- The failure responses of the handler: an HTTP status code and the
OperationOutcome issue code of the body. -/
structure HandlerError where
  status : Nat
  code : String
  deriving Repr, DecidableEq

/-- Embedding of the `replaceManifest` branch of the bulk-submit request
handler (the revision of bulkSubmitHandler that implements replacement;
the copy kept under src/src is an older stub).  With the submission
already looked up: reject a complete or aborted submission with 400,
reject with 404 when no job of the submission has the replaced manifest
url, otherwise register a new job for the new manifest url, abort the
job being replaced, and remove the replaced manifest url from the status
manifest.  The new job id is the fresh uuid of the Job constructor.
Returns the updated submission and the record files unlinked. -/
def replaceManifest (sub : SubmissionM) (replacesManifestUrl manifestUrl : String)
    (newJobId : Nat) : Except HandlerError (SubmissionM × List String) :=
  if sub.status = .complete ∨ sub.status = .aborted then
    .error { status := 400, code := "invalid" }
  else
    match sub.jobs.find? (fun j => j.manifestUrl == replacesManifestUrl) with
    | none => .error { status := 404, code := "not-found" }
    | some jobToReplace =>
      let newJob : JobM :=
        { jobId := newJobId, manifestUrl := manifestUrl, status := .pending }
      let jobs1 := addJobM sub.jobs newJob
      let jobs2 := abortJobById jobs1 jobToReplace.jobId
      let sm := removeManifestUrl sub.manifest replacesManifestUrl
      .ok ({ status := sub.status, jobs := jobs2, manifest := sm.1 }, sm.2)

/-- A parsed NDJSON line that fails resource validation: its id is
missing. -/
def badLine : JValue := .obj [("resourceType", .str "Patient")]

/-- A parsed NDJSON line that passes resource validation. -/
def goodLine : JValue := .obj [("resourceType", .str "Patient"), ("id", .str "p2")]

/-- A manifest whose transactionTime is present but is the empty string,
with every other validation rule satisfied. -/
def emptyTimeManifest : ManifestJS :=
  { transactionTime := some (.str ""), requiresAccessToken := some (.bool true),
    output := some (.arr []) }

/-- The acceptance condition of claim C8 read literally: transactionTime
present, requiresAccessToken strictly boolean, output an array, deleted
absent or an array. -/
def claimC8Accepts (m : ManifestJS) : Bool :=
  m.transactionTime.isSome && isBoolOpt m.requiresAccessToken && isArrayOpt m.output &&
  (!m.deleted.isSome || isArrayOpt m.deleted)

/-- A job in the failed state with a usable manifest url. -/
def failedJob : JobM :=
  { jobId := 1, manifestUrl := "http://example.com/m1", status := .failed }

/-- A mix of jobs in all non-running states. -/
def mixedJobs : List JobM :=
  [{ jobId := 1, manifestUrl := "http://example.com/m1", status := .pending },
   { jobId := 2, manifestUrl := "http://example.com/m2", status := .failed },
   { jobId := 3, manifestUrl := "http://example.com/m3", status := .aborted },
   { jobId := 4, manifestUrl := "http://example.com/m4", status := .complete }]

/-- A submission with one running job for the manifest url old and a
status-manifest entry for it. -/
def sampleSubmission : SubmissionM :=
  { status := .inProgress,
    jobs := [{ jobId := 1, manifestUrl := "old", status := .inProgress }],
    manifest := { entries := [("old", { fileUrl := "f", filePath := "p" })] } }

/-- A status manifest holding a single entry, for a url different from
the one removed in the C10 witness. -/
def sampleSMState : SMState :=
  { entries := [("a", { fileUrl := "f", filePath := "p" })] }

/-- When every line of the valid part passes validation and the next
line fails, the write loop writes exactly the valid part and reports the
failing line. -/
theorem writeLines_eq_of_bad (fileType : Option String) (pre rest : List JValue)
    (bad : JValue)
    (hpre : ∀ l ∈ pre, validateResource l fileType = none)
    (hbad : validateResource bad fileType ≠ none) :
    writeLines fileType (pre ++ bad :: rest) = (pre, some bad) := by
  induction pre with
  | nil =>
    obtain ⟨e, he⟩ := Option.ne_none_iff_exists'.mp hbad
    simp [writeLines, he]
  | cons p pre ih =>
    have hp : validateResource p fileType = none := hpre p (by simp)
    have ih2 := ih (fun l hl => hpre l (by simp [hl]))
    simp [writeLines, hp, ih2]

/-- A lookup miss means no binding in the association list has the
key. -/
theorem lookup_none_keys {β : Type} (l : List (String × β)) (k : String)
    (h : l.lookup k = none) : ∀ p ∈ l, p.1 ≠ k := by
  induction l with
  | nil => simp
  | cons q l ih =>
    intro p hp
    cases q with
    | mk qk qv =>
      rcases hq : (k == qk) with _ | _
      · rcases List.mem_cons.mp hp with hp | hp
        · subst hp
          intro hk
          have hk2 : qk = k := hk
          subst hk2
          simp at hq
        · exact ih (by simpa [List.lookup, hq] using h) p hp
      · exfalso
        simp [List.lookup, hq] at h

/-- Adding a job whose id is fresh appends it to the jobs map. -/
theorem addJobM_fresh (jobs : List JobM) (j : JobM)
    (h : ∀ o ∈ jobs, o.jobId ≠ j.jobId) :
    addJobM jobs j = jobs ++ [j] := by
  unfold addJobM
  have hany : jobs.any (fun o => o.jobId == j.jobId) = false := by
    simp only [List.any_eq_false]
    intro o ho
    simpa using h o ho
  simp [hany]

/-- The step relation of the queue neither settles nor enqueues a future
that is absent from the state, unless the operation enqueues it
explicitly. -/
theorem qApply_preserves_absent (s : QState) (op : QOp) (id : Nat)
    (hsettled : ∀ r ∈ s.settled, r.1 ≠ id)
    (hqueue : ∀ it ∈ s.queue, it.id ≠ id)
    (hop : ∀ j : QItem, op = QOp.addJob j → j.id ≠ id) :
    (∀ r ∈ (qApply s op).settled, r.1 ≠ id) ∧
    (∀ it ∈ (qApply s op).queue, it.id ≠ id) := by
  rcases op with it | _ | _
  · refine ⟨hsettled, ?_⟩
    intro o ho
    simp only [qApply, List.mem_append, List.mem_singleton] at ho
    rcases ho with ho | ho
    · exact hqueue o ho
    · subst ho
      exact hop o rfl
  · refine ⟨?_, ?_⟩
    · intro r hr
      exact hsettled r hr
    · intro o ho
      simp [qApply] at ho
  · rcases hq : s.queue with _ | ⟨it, rest⟩
    · have hid : qApply s .step = s := by
        simp [qApply, hq]
      rw [hid]
      exact ⟨hsettled, hqueue⟩
    · have hit : it.id ≠ id := hqueue it (by simp [hq])
      have hrest : ∀ o ∈ rest, o.id ≠ id := fun o ho => hqueue o (by simp [hq, ho])
      rcases ho : it.outcome with e | v
      all_goals refine ⟨?_, ?_⟩
      all_goals simp only [qApply, hq, ho]
      · intro r hr
        rcases List.mem_append.mp hr with hr | hr
        · exact hsettled r hr
        · rw [List.mem_singleton.mp hr]
          exact hit
      · exact hrest
      · intro r hr
        rcases List.mem_append.mp hr with hr | hr
        · exact hsettled r hr
        · rw [List.mem_singleton.mp hr]
          exact hit
      · exact hrest

/-- A future absent from the queue and from the settled list stays
unsettled across any script that never enqueues it again. -/
theorem qRun_preserves_absent (ops : List QOp) (s : QState) (id : Nat)
    (hsettled : ∀ r ∈ s.settled, r.1 ≠ id)
    (hqueue : ∀ it ∈ s.queue, it.id ≠ id)
    (hops : ∀ op ∈ ops, ∀ j : QItem, op = QOp.addJob j → j.id ≠ id) :
    ∀ r ∈ (qRun s ops).settled, r.1 ≠ id := by
  induction ops generalizing s with
  | nil => exact hsettled
  | cons op ops ih =>
    have hstep := qApply_preserves_absent s op id hsettled hqueue
      (fun j hj => hops op (by simp) j hj)
    exact ih (qApply s op) hstep.1 hstep.2
      (fun o ho j hj => hops o (by simp [ho]) j hj)

/-- Claim C1, counterexample: in a file whose first parsed line fails
resource validation (missing id) and whose second line is valid, the
download writes nothing at all: the later valid line is not validated
and not persisted, contradicting the claim that processing of the same
file continues with the remaining lines. -/
theorem C1_counterexample :
    validateResource goodLine none = none ∧
    downloadFile { url := "u" } (.ok [badLine, goodLine]) =
      ([.downloadStart "u",
        .errorEvent { issueType := "invalid", lineNumber := some 1,
                      resource := some badLine }],
       []) :=
  ⟨rfl, rfl⟩

/-- Claim C1 (amended): within a ManifestFetcher run, when a parsed line
of an NDJSON file fails resource validation, a single error tagged with
issue-type invalid is reported for that file, carrying the offending
line and its 1-based line number; the valid lines before it remain
persisted, and processing of that file stops: the remaining lines are
neither validated nor persisted (the run then continues with the next
file). -/
theorem C1_invalid_line_reported_and_stops (file : FileEntry)
    (pre rest : List JValue) (bad : JValue)
    (hpre : ∀ l ∈ pre, validateResource l file.type = none)
    (hbad : validateResource bad file.type ≠ none) :
    downloadFile file (.ok (pre ++ bad :: rest)) =
      ([.downloadStart file.url,
        .errorEvent { issueType := "invalid", lineNumber := some (pre.length + 1),
                      resource := some bad }], pre) := by
  have hw := writeLines_eq_of_bad file.type pre rest bad hpre hbad
  simp only [downloadFile, hw]

/-- Claim C1, witness: the amended theorem at a concrete two-line file
whose second line is invalid. -/
theorem C1_invalid_line_reported_and_stops_witness :
    downloadFile { url := "u" } (.ok ([goodLine] ++ badLine :: [])) =
      ([.downloadStart "u",
        .errorEvent { issueType := "invalid", lineNumber := some 2,
                      resource := some badLine }], [goodLine]) :=
  C1_invalid_line_reported_and_stops { url := "u" } [goodLine] [] badLine
    (by decide) (by decide)

/-- Claim C2: replacing a manifest of an in-progress submission aborts
the existing job whose manifest url equals the replaced url, creates and
registers a new job with the new manifest url, and removes the replaced
manifest url from the ErrorManifest, so no record for it appears in the
serialized manifest JSON. -/
theorem C2_replace_manifest (sub : SubmissionM) (oldUrl newUrl : String)
    (newId : Nat) (jr : JobM)
    (hstatus : sub.status = .inProgress)
    (hfind : sub.jobs.find? (fun j => j.manifestUrl == oldUrl) = some jr)
    (hfresh : ∀ j ∈ sub.jobs, j.jobId ≠ newId) :
    ∃ sub2 files,
      replaceManifest sub oldUrl newUrl newId = .ok (sub2, files) ∧
      ({ jobId := newId, manifestUrl := newUrl, status := .pending } : JobM) ∈ sub2.jobs ∧
      (∀ j ∈ sub2.jobs, j.jobId = jr.jobId → j.status = .aborted) ∧
      (∀ r ∈ smErrorArray sub2.manifest, r.manifestUrl ≠ oldUrl) := by
  have hne : ¬(sub.status = SStatus.complete ∨ sub.status = SStatus.aborted) := by
    simp [hstatus]
  have hjrmem : jr ∈ sub.jobs := List.mem_of_find?_eq_some hfind
  have hjrid : jr.jobId ≠ newId := hfresh jr hjrmem
  have hadd : addJobM sub.jobs
      { jobId := newId, manifestUrl := newUrl, status := .pending } =
      sub.jobs ++ [{ jobId := newId, manifestUrl := newUrl, status := .pending }] :=
    addJobM_fresh _ _ (fun o ho => hfresh o ho)
  have key : replaceManifest sub oldUrl newUrl newId =
      .ok ({ status := sub.status,
             jobs := abortJobById (addJobM sub.jobs
               { jobId := newId, manifestUrl := newUrl, status := .pending }) jr.jobId,
             manifest := (removeManifestUrl sub.manifest oldUrl).1 },
           (removeManifestUrl sub.manifest oldUrl).2) := by
    unfold replaceManifest
    rw [if_neg hne, hfind]
  refine ⟨_, _, key, ?_, ?_, ?_⟩
  · show _ ∈ abortJobById _ jr.jobId
    unfold abortJobById
    rw [hadd]
    apply List.mem_map.mpr
    refine ⟨{ jobId := newId, manifestUrl := newUrl, status := .pending }, by simp, ?_⟩
    have hbeq : (newId == jr.jobId) = false := by
      simp only [beq_eq_false_iff_ne]
      exact fun h => hjrid h.symm
    simp [hbeq]
  · intro j hj hid
    unfold abortJobById at hj
    rw [hadd] at hj
    obtain ⟨o, ho, rfl⟩ := List.mem_map.mp hj
    rcases hb : (o.jobId == jr.jobId) with _ | _
    · exfalso
      simp only [hb, Bool.false_eq_true, if_false] at hid
      exact (beq_eq_false_iff_ne.mp hb) hid
    · simp
  · intro r hr
    rcases hl : sub.manifest.entries.lookup oldUrl with _ | e
    · have hrm : removeManifestUrl sub.manifest oldUrl = (sub.manifest, []) := by
        unfold removeManifestUrl
        rw [hl]
      rw [hrm] at hr
      unfold smErrorArray at hr
      obtain ⟨p, hp, rfl⟩ := List.mem_map.mp hr
      exact lookup_none_keys _ _ hl p hp
    · have hrm : removeManifestUrl sub.manifest oldUrl =
          ({ entries := sub.manifest.entries.filter (fun p => p.1 != oldUrl) },
           [e.filePath]) := by
        unfold removeManifestUrl
        rw [hl]
      rw [hrm] at hr
      unfold smErrorArray at hr
      obtain ⟨p, hp, rfl⟩ := List.mem_map.mp hr
      have hkey := (List.mem_filter.mp hp).2
      simpa using hkey

/-- Claim C2, witness: the theorem at a concrete submission holding one
running job for the url old and one error-manifest entry for it. -/
theorem C2_replace_manifest_witness :
    ∃ sub2 files,
      replaceManifest sampleSubmission "old" "new" 2 = .ok (sub2, files) ∧
      ({ jobId := 2, manifestUrl := "new", status := .pending } : JobM) ∈ sub2.jobs ∧
      (∀ j ∈ sub2.jobs,
        j.jobId = ({ jobId := 1, manifestUrl := "old", status := .inProgress } : JobM).jobId →
        j.status = .aborted) ∧
      (∀ r ∈ smErrorArray sub2.manifest, r.manifestUrl ≠ "old") :=
  C2_replace_manifest sampleSubmission "old" "new" 2
    { jobId := 1, manifestUrl := "old", status := .inProgress }
    rfl rfl (by decide)

/-- Claim C3, counterexample: a submission holding a single job in the
failed state starts nothing: `submissionStart` returns the job
unchanged, still failed, although starting it directly would have
succeeded and put it in progress.  This contradicts the claim that
start() starts every job whose status is pending, failed, or aborted. -/
theorem C3_counterexample :
    submissionStart [failedJob] = .ok [failedJob] ∧
    failedJob.status = .failed ∧
    jobStartM failedJob = .ok { failedJob with status := .inProgress } :=
  ⟨rfl, rfl, rfl⟩

/-- Claim C3 (amended): for every submission whose jobs all carry a
manifest url, start() starts exactly the jobs whose status is pending or
aborted, putting them in progress; jobs in any other state, including
failed, are left untouched. -/
theorem C3_start_only_pending_or_aborted (js : List JobM)
    (hurl : ∀ j ∈ js, j.manifestUrl ≠ "") :
    submissionStart js = .ok (js.map (fun j =>
      if j.status = .pending ∨ j.status = .aborted
      then { j with status := .inProgress } else j)) := by
  induction js with
  | nil => rfl
  | cons j rest ih =>
    have hj : j.manifestUrl ≠ "" := hurl j (by simp)
    have ih2 := ih (fun o ho => hurl o (by simp [ho]))
    by_cases hs : j.status = .pending ∨ j.status = .aborted
    · have hns : j.status ≠ .inProgress := by
        rcases hs with h | h <;> simp [h]
      have hjs : jobStartM j = .ok { j with status := .inProgress } := by
        unfold jobStartM
        rw [if_neg hns, if_neg hj]
      unfold submissionStart
      rw [if_pos hs, hjs, ih2]
      simp [hs]
    · unfold submissionStart
      rw [if_neg hs, ih2]
      simp [hs]

/-- Claim C3, witness: the amended theorem at a concrete list holding a
pending, a failed, an aborted and a complete job. -/
theorem C3_start_only_pending_or_aborted_witness :
    submissionStart mixedJobs = .ok (mixedJobs.map (fun j =>
      if j.status = .pending ∨ j.status = .aborted
      then { j with status := .inProgress } else j)) :=
  C3_start_only_pending_or_aborted mixedJobs (by decide)

/-- Claim C4, failing input: over a valid manifest whose output, deleted
and error arrays are all empty (N = 0), `downloadAllFiles` enqueues no
task, so the queue never drains and never emits idle; the promise it
returned never settles, the run never resolves, and neither a progress
event nor the final complete event is ever emitted, contradicting the
claim that complete fires exactly once.  The trace of the hanging run is
just the start event with the resolved flag false. -/
theorem C4_empty_manifest_never_completes :
    runTrace (fun _ => .error "unused") {} = ([DEvent.start], false) ∧
    countComplete (runTrace (fun _ => .error "unused") {}).1 = 0 ∧
    countProgress (runTrace (fun _ => .error "unused") {}).1 = 0 :=
  ⟨rfl, rfl, rfl⟩

/-- Claim C5: enqueue followed by abortAll before the task starts
executing leaves the task's future forever unsettled (in every
continuation of the queue that does not enqueue the same future again),
and a task enqueued afterwards on the same queue is processed normally,
settling with its own outcome. -/
theorem C5_abort_discards_pending_task (s : QState) (it itLater : QItem)
    (post : List QOp)
    (hsettled : ∀ r ∈ s.settled, r.1 ≠ it.id)
    (hpost : ∀ op ∈ post, ∀ j : QItem, op = QOp.addJob j → j.id ≠ it.id) :
    (∀ r ∈ (qRun (qApply (qApply s (.addJob it)) .abortAll) post).settled,
      r.1 ≠ it.id) ∧
    (itLater.id, itLater.outcome) ∈
      (qApply (qApply (qApply (qApply s (.addJob it)) .abortAll)
        (.addJob itLater)) .step).settled := by
  constructor
  · apply qRun_preserves_absent post _ it.id
    · exact hsettled
    · intro o ho
      simp [qApply] at ho
    · exact hpost
  · rcases hol : itLater.outcome with e | v
    · simp [qApply, hol]
    · simp [qApply, hol]

/-- Claim C5, witness: the theorem at a fresh queue, a first task that
is enqueued and discarded by abortAll, and a second task enqueued
afterwards. -/
theorem C5_abort_discards_pending_task_witness :
    (∀ r ∈ (qRun (qApply (qApply {} (.addJob ⟨1, .ok "a"⟩)) .abortAll) []).settled,
      r.1 ≠ 1) ∧
    ((2 : Nat), Except.ok (ε := String) "b") ∈
      (qApply (qApply (qApply (qApply {} (.addJob ⟨1, .ok "a"⟩)) .abortAll)
        (.addJob ⟨2, .ok "b"⟩)) .step).settled :=
  C5_abort_discards_pending_task {} ⟨1, .ok "a"⟩ ⟨2, .ok "b"⟩ []
    (by simp) (by simp)

/-- Claim C6: when the head task of the queue fails, its future rejects
with the original error whether or not an error listener is registered;
the error event is emitted exactly when at least one error listener is
registered; and in both cases the queue proceeds to the next queued
item. -/
theorem C6_error_listener_semantics (s : QState) (it : QItem)
    (rest : List QItem) (e : String)
    (hq : s.queue = it :: rest) (ho : it.outcome = .error e) :
    ((it.id, Except.error e) ∈ (qApply s .step).settled) ∧
    (s.errorListeners = 0 → (qApply s .step).events = s.events) ∧
    (0 < s.errorListeners →
      (qApply s .step).events = s.events ++ [QEvent.errorEv e]) ∧
    (qApply s .step).queue = rest := by
  have hstep : qApply s .step =
      { s with queue := rest,
               settled := s.settled ++ [(it.id, .error e)],
               events := s.events ++
                 (if s.errorListeners > 0 then [.errorEv e] else []) } := by
    simp only [qApply, hq, ho]
  rw [hstep]
  refine ⟨by simp, ?_, ?_, rfl⟩
  · intro h0
    simp [h0]
  · intro hpos
    rw [if_pos hpos]

/-- Claim C6, witness: the theorem at a queue with no error listener
whose head task fails, followed by one more queued task. -/
theorem C6_error_listener_semantics_witness :
    (((5 : Nat), Except.error (α := String) "boom") ∈
      (qApply { queue := [⟨5, .error "boom"⟩, ⟨6, .ok "v"⟩] } .step).settled) ∧
    ((0 : Nat) = 0 →
      (qApply { queue := [⟨5, .error "boom"⟩, ⟨6, .ok "v"⟩] } .step).events = []) ∧
    ((0 : Nat) < 0 →
      (qApply { queue := [⟨5, .error "boom"⟩, ⟨6, .ok "v"⟩] } .step).events =
        [] ++ [QEvent.errorEv "boom"]) ∧
    (qApply { queue := [⟨5, .error "boom"⟩, ⟨6, .ok "v"⟩] } .step).queue =
      [⟨6, .ok "v"⟩] :=
  C6_error_listener_semantics { queue := [⟨5, .error "boom"⟩, ⟨6, .ok "v"⟩] }
    ⟨5, .error "boom"⟩ [⟨6, .ok "v"⟩] "boom" rfl rfl

/-- Claim C7: whatever events a run delivered before it, the complete
event forces the job status to complete and its progress to 100, and
leaves the stored error of the preceding events untouched, so a run that
failed partway still ends complete at 100 with the failure recorded. -/
theorem C7_complete_forces_complete (s : JobState) (es : List DEvent) :
    (jobApplyEvents s (es ++ [DEvent.complete])).status = .complete ∧
    (jobApplyEvents s (es ++ [DEvent.complete])).progress = 100 ∧
    (jobApplyEvents s (es ++ [DEvent.complete])).error =
      (jobApplyEvents s es).error := by
  unfold jobApplyEvents
  rw [List.foldl_append]
  exact ⟨rfl, rfl, rfl⟩

/-- Claim C8, counterexample: a manifest whose transactionTime is
present but is the empty string satisfies all four rules of the claim
(transactionTime not missing, requiresAccessToken strictly boolean,
output an array, deleted absent), yet `validateManifest` raises the
missing-transactionTime error, because the source tests JavaScript
truthiness rather than presence. -/
theorem C8_counterexample :
    claimC8Accepts emptyTimeManifest = true ∧
    validateManifest emptyTimeManifest =
      .error "Manifest is missing transactionTime" :=
  ⟨rfl, rfl⟩

/-- Claim C8 (amended): `validateManifest` raises an error iff the
transactionTime is absent or JavaScript-falsy (empty string, 0, false,
null), or requiresAccessToken is not strictly boolean, or output is not
an array, or deleted is present and not an array; it fails fast with the
error of the first violated rule in that order, and a manifest violating
no rule is accepted; equivalently, it agrees with the spec-side
validator built from the ordered violation list. -/
theorem C8_validate_manifest_rules (m : ManifestJS) :
    validateManifest m = specValidateManifest m := by
  unfold validateManifest specValidateManifest manifestRuleViolations
  rcases h1 : jsTruthyOpt m.transactionTime with _ | _ <;>
    rcases h2 : isBoolOpt m.requiresAccessToken with _ | _ <;>
      rcases h3 : isArrayOpt m.output with _ | _ <;>
        rcases h4 : (m.deleted.isSome && !isArrayOpt m.deleted) with _ | _ <;>
          simp [h1, h2, h3, h4]

/-- Claim C9: the aggregate progress of a submission equals the
arithmetic mean of the progress values of its jobs rounded to 2 decimal
places, and equals 0 when the submission has no jobs. -/
theorem C9_progress_is_mean_rounded (ps : List ℚ) :
    submissionProgress ps = specMeanRounded ps := by
  rcases ps with _ | ⟨p, ps⟩
  · rfl
  · unfold submissionProgress specMeanRounded roundToPrecision
    norm_num

/-- Claim C10: removing a manifest url that has no entry from a status
manifest is a silent no-op: the state is returned unchanged, no file is
unlinked, and the serialized error array is unchanged (the unlink call,
the only operation that could throw, is guarded behind the existence
check). -/
theorem C10_remove_missing_url_noop (s : SMState) (url : String)
    (h : s.entries.lookup url = none) :
    removeManifestUrl s url = (s, []) ∧
    smErrorArray (removeManifestUrl s url).1 = smErrorArray s := by
  have he : removeManifestUrl s url = (s, []) := by
    unfold removeManifestUrl
    rw [h]
  exact ⟨he, by rw [he]⟩

/-- Claim C10, witness: the theorem at a status manifest holding an
entry for a different url than the one removed. -/
theorem C10_remove_missing_url_noop_witness :
    removeManifestUrl sampleSMState "b" = (sampleSMState, []) ∧
    smErrorArray (removeManifestUrl sampleSMState "b").1 =
      smErrorArray sampleSMState :=
  C10_remove_missing_url_noop sampleSMState "b" (by decide)

/-- Event counts add over concatenation of traces. -/
theorem countProgress_append (a b : List DEvent) :
    countProgress (a ++ b) = countProgress a + countProgress b := by
  induction a with
  | nil => simp [countProgress]
  | cons e a ih => simp [countProgress, ih]; omega

/-- Complete counts add over concatenation of traces. -/
theorem countComplete_append (a b : List DEvent) :
    countComplete (a ++ b) = countComplete a + countComplete b := by
  induction a with
  | nil => simp [countComplete]
  | cons e a ih => simp [countComplete, ih]; omega

/-- Progress count of a flattened trace list is the sum of the
counts. -/
theorem countProgress_flatten (ls : List (List DEvent)) :
    countProgress ls.flatten = (ls.map countProgress).sum := by
  induction ls with
  | nil => rfl
  | cons a ls ih => simp [List.flatten_cons, countProgress_append, ih]

/-- Complete count of a flattened trace list is the sum of the
counts. -/
theorem countComplete_flatten (ls : List (List DEvent)) :
    countComplete ls.flatten = (ls.map countComplete).sum := by
  induction ls with
  | nil => rfl
  | cons a ls ih => simp [List.flatten_cons, countComplete_append, ih]

/-- The sum of a constant-one map is the length of the list. -/
theorem sum_map_one {α : Type} (l : List α) :
    (l.map (fun _ => (1 : Nat))).sum = l.length := by
  induction l with
  | nil => rfl
  | cons a l ih =>
    simp [ih]
    omega

/-- The sum of a constant-zero map is zero. -/
theorem sum_map_zero {α : Type} (l : List α) :
    (l.map (fun _ => (0 : Nat))).sum = 0 := by
  induction l with
  | nil => rfl
  | cons a l ih => simp [ih]

/-- A single file task emits no progress event of its own. -/
theorem countProgress_downloadFile (f : FileEntry) (r : Except String (List JValue)) :
    countProgress (downloadFile f r).1 = 0 := by
  rcases r with e | lines
  · rfl
  · simp only [downloadFile]
    rcases hw : writeLines f.type lines with ⟨w, b⟩
    rcases b with _ | bad
    · rcases hc : f.count with _ | c
      · simp [countProgress]
      · rcases hif : (c != w.length) with _ | _ <;> simp [hif, countProgress]
    · simp [countProgress]

/-- A single file task emits no complete event of its own. -/
theorem countComplete_downloadFile (f : FileEntry) (r : Except String (List JValue)) :
    countComplete (downloadFile f r).1 = 0 := by
  rcases r with e | lines
  · rfl
  · simp only [downloadFile]
    rcases hw : writeLines f.type lines with ⟨w, b⟩
    rcases b with _ | bad
    · rcases hc : f.count with _ | c
      · simp [countComplete]
      · rcases hif : (c != w.length) with _ | _ <;> simp [hif, countComplete]
    · simp [countComplete]

/-- Over a valid manifest with at least one entry, the run resolves,
emits complete exactly once, and emits exactly one progress event per
entry, whatever the individual downloads did. -/
theorem runTrace_completes_of_entries (fetch : FetchOracle) (m : Manifest)
    (h : allFiles m ≠ []) :
    (runTrace fetch m).2 = true ∧
    countComplete (runTrace fetch m).1 = 1 ∧
    countProgress (runTrace fetch m).1 = (allFiles m).length := by
  have hlen : ¬((allFiles m).length = 0) := fun hz => h (List.length_eq_zero.mp hz)
  unfold runTrace
  rw [if_neg hlen]
  have hmapC : ((allFiles m).enum.map (fileTaskEvents fetch (allFiles m).length)).map
      countComplete =
      (allFiles m).enum.map (fun _ => (0 : Nat)) := by
    rw [List.map_map]
    apply List.map_congr_left
    intro p hp
    show countComplete (fileTaskEvents fetch (allFiles m).length p) = 0
    unfold fileTaskEvents
    rw [countComplete_append, countComplete_downloadFile]
    rfl
  have hmapP : ((allFiles m).enum.map (fileTaskEvents fetch (allFiles m).length)).map
      countProgress =
      (allFiles m).enum.map (fun _ => (1 : Nat)) := by
    rw [List.map_map]
    apply List.map_congr_left
    intro p hp
    show countProgress (fileTaskEvents fetch (allFiles m).length p) = 1
    unfold fileTaskEvents
    rw [countProgress_append, countProgress_downloadFile]
    rfl
  refine ⟨rfl, ?_, ?_⟩
  · simp only [countComplete]
    rw [List.append_eq, countComplete_append, countComplete_flatten, hmapC,
      sum_map_zero]
    rfl
  · simp only [countProgress]
    rw [List.append_eq, countProgress_append, countProgress_flatten, hmapP,
      sum_map_one, List.enum_length]
    simp [countProgress]

end BulkSubmit
